import Mathlib

/-!
Formal model of the bexi `BlockchainMonitor` pipeline
(`src/bexi/blockchain_monitor/__init__.py`).

The Python pipeline walks blocks, transactions and operations, filters
transfer operations touching the monitored account, enriches matches
(account names, memo decoding) and inserts them into a storage backend,
advancing a checkpoint after each block.  External collaborators
(the `bitshares` library and the operation storage backend) are modelled
as function-valued fields of `Monitor` and as the `Storage` structure.
Side effects and call order are made observable through an event trace
(`Ev`).  The first operation's payload dictionary is aliased between the
transaction and the candidate event in Python; the model represents that
aliasing by letting candidate records refer to payloads by index into the
current transaction state, which is threaded through the processing
functions.
-/

namespace Bexi

/-- Opaque encrypted memo payload handed to the external decryption
collaborator (`Memo.decrypt`). -/
structure MemoPayload where
  raw : String
  deriving DecidableEq

/-- Outcome of the external memo decryption collaborator: success, or one
of the three exception kinds the monitor catches (`MissingKeyError`,
`KeyError`, `ValueError`).  Any other exception would propagate out of the
monitor, so it is not part of the modelled interface (spec section 6 lists
exactly three failure conditions). -/
inductive DecryptResult where
  | ok (plaintext : String)
  | missingKeyError
  | keyError
  | valueError
  deriving DecidableEq

/-- A transfer operation's payload dictionary.  Only the keys the monitor
touches are modelled.  `pfx` models the optional `"prefix"` key that
`get_tx_id` inserts for non-default chains. -/
structure Payload where
  from_ : String
  to_ : String
  memo : Option MemoPayload
  pfx : Option String
  deriving DecidableEq

/-- A transaction dictionary: `expiration`, the raw
`(operationTypeId, payload)` pairs, and the block-level metadata that
`process_block` attaches via `transaction.update`. -/
structure Transaction where
  expiration : String
  operations : List (Nat × Payload)
  block_num : Option Nat
  timestamp : Option String
  deriving DecidableEq

/-- A block dictionary as yielded by the Ledger Source. -/
structure Block where
  block_num : Nat
  timestamp : String
  transactions : List Transaction
  deriving DecidableEq

/-- The fully populated operation dictionary handed to
`storage.insert_operation`: the candidate fields plus `transaction_id`,
both resolved account names and the decoded memo. -/
structure EnrichedEvent where
  block_num : Option Nat
  timestamp : Option String
  expiration : String
  op_in_tx : Nat
  op_type : String
  payload : Payload
  transaction_id : String
  from_name : String
  to_name : String
  decoded_memo : String
  deriving DecidableEq

/-- The monitor's configuration together with its external collaborators:
`my_account_id` is `self.my_account["id"]`, `pfx` is
`self.bitshares.prefix`, `txIdOf` is `Signed_Transaction(**tx).id`,
`resolveName` is `Account(x)["name"]` and `decrypt` is `Memo().decrypt`. -/
structure Monitor where
  my_account_id : String
  pfx : String
  txIdOf : Transaction → String
  resolveName : String → String
  decrypt : MemoPayload → DecryptResult

/-- Modelled from the spec: the operation storage backend is repository
code that is not under src/ (only `DuplicateOperationException` and the
factory are imported there).  Spec section 4.6 gives its contract: an
idempotent event store keyed on `(transaction_id, op_in_tx)` plus a single
checkpoint value. -/
structure Storage where
  ops : List EnrichedEvent
  last_head_block_num : Nat
  deriving DecidableEq

/-- Whether the store already holds an event with the same
`(transaction_id, op_in_tx)` deduplication key. -/
def hasKey (st : Storage) (ev : EnrichedEvent) : Bool :=
  st.ops.any fun e =>
    e.transaction_id == ev.transaction_id && e.op_in_tx == ev.op_in_tx

/-- Modelled from the spec: `insert(event)` persists the event and raises
`DuplicateOperationException` (here `Except.error ()`) when an event with
the same `(transaction_id, op_in_tx)` key already exists, leaving the
store unchanged. -/
def insert_operation (st : Storage) (ev : EnrichedEvent) : Except Unit Storage :=
  if hasKey st ev then Except.error ()
  else Except.ok { st with ops := st.ops ++ [ev] }

/-- Modelled from the spec: the storage checkpoint accessor, 0 when no
block has been recorded yet. -/
def get_last_head_block_num (st : Storage) : Nat :=
  st.last_head_block_num

/-- Modelled from the spec: the storage checkpoint writer. -/
def set_last_head_block_num (st : Storage) (n : Nat) : Storage :=
  { st with last_head_block_num := n }

/-- Observable pipeline events, in the order the Python code performs
them: a filter decision, a transaction-id derivation (an actual call of
`get_tx_id`), an account name resolution, a memo decoding attempt, an
insertion attempt (`dup` records whether the duplicate branch was taken),
and a checkpoint write. -/
inductive Ev where
  | filterCheck (op_in_tx : Nat) (matched : Bool)
  | deriveTxId (txid : String)
  | resolveName (account : String)
  | decodeMemoCall
  | insert (ev : EnrichedEvent) (dup : Bool)
  | setCheckpoint (n : Nat)
  deriving DecidableEq

/-- The static operation-id to name table (`getOperationNameForId` from
`bitsharesbase.operationids`); id 0 is `"transfer"`. -/
def getOperationNameForId (opId : Nat) : String :=
  if opId = 0 then "transfer"
  else if opId = 1 then "limit_order_create"
  else if opId = 2 then "limit_order_cancel"
  else if opId = 6 then "account_update"
  else "op_" ++ toString opId

def emptyPayload : Payload :=
  { from_ := "", to_ := "", memo := none, pfx := none }

/-- The payload dictionary of operation `i` of `tx`.  Candidate records
hold the payload by reference (Python dict aliasing); the model resolves
the reference through the current transaction state. -/
def payloadAt (tx : Transaction) (i : Nat) : Payload :=
  (tx.operations.getD i (0, emptyPayload)).2

/-- `get_tx_id`: for a non-default chain prefix, insert the `"prefix"`
key into the first operation's payload (mutating the transaction state),
then derive the transaction id from the resulting transaction via
`Signed_Transaction`. -/
def get_tx_id (M : Monitor) (tx : Transaction) : Transaction × String :=
  let tx' :=
    if M.pfx ≠ "BTS" then
      { tx with operations :=
          match tx.operations with
          | [] => []
          | (t0, p0) :: rest => (t0, { p0 with pfx := some M.pfx }) :: rest }
    else tx
  (tx', M.txIdOf tx')

/-- The operation dictionary built inside `process_transaction`'s loop:
block metadata, `expiration`, the position `op_in_tx`, the decoded
operation name, the payload reference, and (not yet set) the transaction
id added later by `operation.update`. -/
structure OperationRecord where
  block_num : Option Nat
  timestamp : Option String
  expiration : String
  op_in_tx : Nat
  op_type : String
  payload_ix : Nat
  transaction_id : Option String
  deriving DecidableEq

/-- Build the operation record for position `i` with raw id `opId`. -/
def mkRecord (tx : Transaction) (i : Nat) (opId : Nat) : OperationRecord :=
  { block_num := tx.block_num
    timestamp := tx.timestamp
    expiration := tx.expiration
    op_in_tx := i
    op_type := getOperationNameForId opId
    payload_ix := i
    transaction_id := none }

/-- `operation_matches`: true iff the decoded type is `"transfer"` and one
of the payload's sides is the monitored account id. -/
def operation_matches (M : Monitor) (tx : Transaction) (op : OperationRecord) : Bool :=
  if op.op_type = "transfer" ∧
      ((payloadAt tx op.payload_ix).from_ = M.my_account_id ∨
       (payloadAt tx op.payload_ix).to_ = M.my_account_id) then
    true
  else
    false

/-- `decode_memo`: decrypt the memo, turning the caught exceptions into
replacement strings.  An absent `memo` key raises `KeyError` at
`payload["memo"]`, which the `except KeyError` arm turns into `""`
(note: the docstring advertises a `!NO MEMO PROVIDED!` message that the
code never produces). -/
def decode_memo (M : Monitor) (payload : Payload) : String :=
  match payload.memo with
  | none => ""
  | some m =>
    match M.decrypt m with
    | DecryptResult.ok plaintext => plaintext
    | DecryptResult.missingKeyError => "!MEMO KEY MISSING!"
    | DecryptResult.keyError => ""
    | DecryptResult.valueError => "!COULDN\x27T DECODE MEMO!"

/-- The enriched operation dictionary built inside
`postprocess_operation` just before `storage.insert_operation`. -/
def mkEnriched (M : Monitor) (tx : Transaction) (op : OperationRecord) : EnrichedEvent :=
  { block_num := op.block_num
    timestamp := op.timestamp
    expiration := op.expiration
    op_in_tx := op.op_in_tx
    op_type := op.op_type
    payload := payloadAt tx op.payload_ix
    transaction_id := op.transaction_id.getD ""
    from_name := M.resolveName (payloadAt tx op.payload_ix).from_
    to_name := M.resolveName (payloadAt tx op.payload_ix).to_
    decoded_memo := decode_memo M (payloadAt tx op.payload_ix) }

/-- `postprocess_operation`: resolve both account names, decode the memo,
insert the event, and swallow `DuplicateOperationException`. -/
def postprocess_operation (M : Monitor) (tx : Transaction) (st : Storage)
    (op : OperationRecord) : Storage × List Ev :=
  match insert_operation st (mkEnriched M tx op) with
  | Except.ok st' =>
    (st', [Ev.resolveName (payloadAt tx op.payload_ix).from_,
           Ev.resolveName (payloadAt tx op.payload_ix).to_,
           Ev.decodeMemoCall,
           Ev.insert (mkEnriched M tx op) false])
  | Except.error _ =>
    (st, [Ev.resolveName (payloadAt tx op.payload_ix).from_,
          Ev.resolveName (payloadAt tx op.payload_ix).to_,
          Ev.decodeMemoCall,
          Ev.insert (mkEnriched M tx op) true])

/-- `process_operation`: drop the operation unless it matches; otherwise
call the tx-id getter (which may mutate the transaction state), record
the id on the operation dictionary, and post-process. -/
def process_operation (M : Monitor) (st : Storage) (tx : Transaction)
    (op : OperationRecord) : Storage × Transaction × List Ev :=
  if operation_matches M tx op then
    ((postprocess_operation M (get_tx_id M tx).1 st
        { op with transaction_id := some (get_tx_id M tx).2 }).1,
     (get_tx_id M tx).1,
     Ev.filterCheck op.op_in_tx true ::
       Ev.deriveTxId (get_tx_id M tx).2 ::
       (postprocess_operation M (get_tx_id M tx).1 st
          { op with transaction_id := some (get_tx_id M tx).2 }).2)
  else
    (st, tx, [Ev.filterCheck op.op_in_tx false])

/-- The `enumerate(transaction.get("operations", []))` loop of
`process_transaction`: `i` is the running position, `ops` the remaining
raw pairs, and `tx` the current (possibly mutated) transaction state. -/
def processOps (M : Monitor) (i : Nat) (ops : List (Nat × Payload))
    (st : Storage) (tx : Transaction) : Storage × Transaction × List Ev :=
  match ops with
  | [] => (st, tx, [])
  | (opId, _) :: rest =>
    let r := process_operation M st tx (mkRecord tx i opId)
    let r' := processOps M (i + 1) rest r.1 r.2.1
    (r'.1, r'.2.1, r.2.2 ++ r'.2.2)

/-- `process_transaction`: run every operation of the transaction through
`process_operation`, sharing one tx-id getter over the same transaction
state. -/
def process_transaction (M : Monitor) (st : Storage) (tx : Transaction) :
    Storage × Transaction × List Ev :=
  processOps M 0 tx.operations st tx

/-- The transaction loop of `process_block`: attach the block metadata to
each transaction and process it.  The mutated transaction state is local
to each transaction. -/
def processTxs (M : Monitor) (bn : Nat) (ts : String) (st : Storage) :
    List Transaction → Storage × List Ev
  | [] => (st, [])
  | tx :: txs =>
    let r := process_transaction M st
      { tx with block_num := some bn, timestamp := some ts }
    let r' := processTxs M bn ts r.1 txs
    (r'.1, r.2.2 ++ r'.2)

/-- `process_block`: process all transactions of the block. -/
def process_block (M : Monitor) (st : Storage) (b : Block) : Storage × List Ev :=
  processTxs M b.block_num b.timestamp st b.transactions

/-- `listen`'s body applied to the block sequence produced by the Ledger
Source: process each block, then write its number as the checkpoint. -/
def listen (M : Monitor) (st : Storage) : List Block → Storage × List Ev
  | [] => (st, [])
  | b :: bs =>
    let r := process_block M st b
    let r' := listen M (set_last_head_block_num r.1 b.block_num) bs
    (r'.1, r.2 ++ Ev.setCheckpoint b.block_num :: r'.2)

/-- The event trace of a `listen` run. -/
def listenTrace (M : Monitor) (st : Storage) (bs : List Block) : List Ev :=
  (listen M st bs).2

/-- `__init__`'s start-block resolution: when no truthy explicit start
block is given (`if not self.start_block`), read the checkpoint and use
it (itself, not its successor) when positive. -/
def initial_start_block (explicit : Option Nat) (st : Storage) : Option Nat :=
  if explicit = none ∨ explicit = some 0 then
    if get_last_head_block_num st > 0 then some (get_last_head_block_num st)
    else explicit
  else explicit

/-- Modelled from the spec: the Ledger Source's
`blocks(mode, start, stop)` yields the blocks numbered
`start, start + 1, ..., stop` in order (section 6: an ordered, resumable,
lazy sequence of blocks starting at a given block number). -/
def blocksFrom (start stop : Nat) (ts : Nat → String)
    (txs : Nat → List Transaction) : List Block :=
  (List.range' start (stop + 1 - start)).map fun n =>
    { block_num := n, timestamp := ts n, transactions := txs n }

/-! Trace observations. -/

def isFilterEv : Ev → Bool
  | Ev.filterCheck _ _ => true
  | _ => false

def isMatchedEv : Ev → Bool
  | Ev.filterCheck _ true => true
  | _ => false

def isDeriveEv : Ev → Bool
  | Ev.deriveTxId _ => true
  | _ => false

def isDecodeEv : Ev → Bool
  | Ev.decodeMemoCall => true
  | _ => false

/-- Number of filter decisions in a trace. -/
def filterCount (t : List Ev) : Nat := t.countP isFilterEv

/-- Number of positive filter decisions in a trace. -/
def matchedCount (t : List Ev) : Nat := t.countP isMatchedEv

/-- Number of transaction-id derivations in a trace. -/
def deriveCount (t : List Ev) : Nat := t.countP isDeriveEv

/-- The transaction ids derived along a trace, in order. -/
def deriveIds (t : List Ev) : List String :=
  t.filterMap fun e =>
    match e with
    | Ev.deriveTxId s => some s
    | _ => none

/-- The insertion attempts of a trace, each with its duplicate flag. -/
def insertEvents (t : List Ev) : List (EnrichedEvent × Bool) :=
  t.filterMap fun e =>
    match e with
    | Ev.insert ev d => some (ev, d)
    | _ => none

/-- The checkpoint writes of a trace, in order. -/
def checkpoints (t : List Ev) : List Nat :=
  t.filterMap fun e =>
    match e with
    | Ev.setCheckpoint n => some n
    | _ => none

/-- Whether every transaction-id derivation of the trace happens after a
memo-decoding attempt (compared on first occurrences). -/
def derivedOnlyAfterDecode (t : List Ev) : Bool :=
  match t.findIdx? isDeriveEv, t.findIdx? isDecodeEv with
  | some i, some j => decide (j < i)
  | some _, none => false
  | none, _ => true

def isResolveEv : Ev → Bool
  | Ev.resolveName _ => true
  | _ => false

def isInsertEv : Ev → Bool
  | Ev.insert _ _ => true
  | _ => false

/-- Number of account-name resolutions in a trace. -/
def resolveCount (t : List Ev) : Nat := t.countP isResolveEv

/-- Number of memo-decoding attempts in a trace. -/
def decodeCount (t : List Ev) : Nat := t.countP isDecodeEv

/-- Number of insertion attempts in a trace. -/
def insertCount (t : List Ev) : Nat := t.countP isInsertEv

/-- A trace is balanced when every positive filter decision in it is
matched by exactly one transaction-id derivation, two account-name
resolutions, one memo-decoding attempt and one insertion attempt — that
is, no matched operation's enrichment or persistence is still
outstanding. -/
def balanced (t : List Ev) : Prop :=
  deriveCount t = matchedCount t ∧
  insertCount t = matchedCount t ∧
  decodeCount t = matchedCount t ∧
  resolveCount t = 2 * matchedCount t

/-- Total number of operations contained in a block. -/
def totalOps (b : Block) : Nat :=
  (b.transactions.map fun tx => tx.operations.length).sum

/-- Total number of operations contained in the blocks of the stream whose
number is at most `n`. -/
def opsUpTo (bs : List Block) (n : Nat) : Nat :=
  ((bs.filter fun b => b.block_num ≤ n).map totalOps).sum

/-! Concrete instances used by counterexamples and witnesses. -/

/-- A monitor watching account `1.2.7` on a default-prefix chain, with a
constant tx-id derivation and an always-succeeding decryptor. -/
def M1 : Monitor :=
  { my_account_id := "1.2.7"
    pfx := "BTS"
    txIdOf := fun _ => "tid"
    resolveName := fun s => s
    decrypt := fun _ => DecryptResult.ok "hello" }

/-- A monitor whose decryptor raises `KeyError` (malformed memo input). -/
def M7 : Monitor :=
  { my_account_id := "1.2.7"
    pfx := "BTS"
    txIdOf := fun _ => "tid"
    resolveName := fun s => s
    decrypt := fun _ => DecryptResult.keyError }

/-- A monitor on a chain with non-default address prefix `TEST`. -/
def M10 : Monitor :=
  { my_account_id := "1.2.7"
    pfx := "TEST"
    txIdOf := fun _ => "tid"
    resolveName := fun s => s
    decrypt := fun _ => DecryptResult.ok "hello" }

def stEmpty : Storage := { ops := [], last_head_block_num := 0 }

/-- A transfer payload from the monitored account, no memo. -/
def pA : Payload := { from_ := "1.2.7", to_ := "1.2.8", memo := none, pfx := none }

/-- A transfer payload to the monitored account, no memo. -/
def pB : Payload := { from_ := "1.2.9", to_ := "1.2.7", memo := none, pfx := none }

/-- A transfer payload with an (undecodable) memo present. -/
def pM : Payload :=
  { from_ := "1.2.7", to_ := "1.2.8", memo := some { raw := "cipher" }, pfx := none }

/-- A transaction with two matching transfer operations. -/
def tx2 : Transaction :=
  { expiration := "e", operations := [(0, pA), (0, pB)],
    block_num := none, timestamp := none }

/-- A transaction with a single matching transfer operation. -/
def tx1 : Transaction :=
  { expiration := "e", operations := [(0, pA)],
    block_num := none, timestamp := none }

/-- A transaction whose only operation is a non-transfer. -/
def txU : Transaction :=
  { expiration := "e", operations := [(6, pA)],
    block_num := none, timestamp := none }

/-! Shape lemmas about single processing steps. -/

/-- Calling the tx-id getter a second time on the already-mutated
transaction state changes nothing and returns the same id. -/
theorem gti_idem (M : Monitor) (tx : Transaction) :
    get_tx_id M (get_tx_id M tx).1 = get_tx_id M tx := by
  unfold get_tx_id
  by_cases h : M.pfx = "BTS"
  · simp [h]
  · cases htx : tx.operations with
    | nil => simp [h, htx]
    | cons hd rest =>
      obtain ⟨t0, p0⟩ := hd
      simp [h, htx]

/-- The exact event list emitted by `postprocess_operation`: two name
resolutions, one memo decoding attempt, one insertion attempt whose
duplicate flag is `hasKey`. -/
theorem postprocess_trace (M : Monitor) (tx : Transaction) (st : Storage)
    (op : OperationRecord) :
    (postprocess_operation M tx st op).2 =
      [Ev.resolveName (payloadAt tx op.payload_ix).from_,
       Ev.resolveName (payloadAt tx op.payload_ix).to_,
       Ev.decodeMemoCall,
       Ev.insert (mkEnriched M tx op) (hasKey st (mkEnriched M tx op))] := by
  unfold postprocess_operation insert_operation
  cases h : hasKey st (mkEnriched M tx op) <;> simp [h]

/-- The storage after `postprocess_operation`: unchanged on a duplicate
key, extended by the enriched event otherwise. -/
theorem postprocess_storage (M : Monitor) (tx : Transaction) (st : Storage)
    (op : OperationRecord) :
    (postprocess_operation M tx st op).1 =
      if hasKey st (mkEnriched M tx op) then st
      else { st with ops := st.ops ++ [mkEnriched M tx op] } := by
  unfold postprocess_operation insert_operation
  cases h : hasKey st (mkEnriched M tx op) <;> simp [h]

/-- A non-matching operation is dropped: no state change, no event other
than the negative filter decision. -/
theorem process_operation_not_matched (M : Monitor) (st : Storage)
    (tx : Transaction) (op : OperationRecord)
    (h : operation_matches M tx op = false) :
    process_operation M st tx op = (st, tx, [Ev.filterCheck op.op_in_tx false]) := by
  unfold process_operation
  simp [h]

/-- A matching operation: the tx-id getter runs (mutating the transaction
state), the id is recorded on the operation, and post-processing runs on
the mutated state. -/
theorem process_operation_matched (M : Monitor) (st : Storage)
    (tx : Transaction) (op : OperationRecord)
    (h : operation_matches M tx op = true) :
    process_operation M st tx op =
      ((postprocess_operation M (get_tx_id M tx).1 st
          { op with transaction_id := some (get_tx_id M tx).2 }).1,
       (get_tx_id M tx).1,
       Ev.filterCheck op.op_in_tx true ::
         Ev.deriveTxId (get_tx_id M tx).2 ::
         (postprocess_operation M (get_tx_id M tx).1 st
            { op with transaction_id := some (get_tx_id M tx).2 }).2) := by
  unfold process_operation
  simp [h]

/-- Every operation contributes exactly one filter decision. -/
theorem process_operation_filterCount (M : Monitor) (st : Storage)
    (tx : Transaction) (op : OperationRecord) :
    filterCount (process_operation M st tx op).2.2 = 1 := by
  cases h : operation_matches M tx op
  · rw [process_operation_not_matched M st tx op h]
    simp [filterCount, isFilterEv]
  · rw [process_operation_matched M st tx op h, postprocess_trace]
    simp [filterCount, isFilterEv, List.countP_cons]

/-- No checkpoint is written while processing a single operation. -/
theorem process_operation_no_checkpoint (M : Monitor) (st : Storage)
    (tx : Transaction) (op : OperationRecord) :
    checkpoints (process_operation M st tx op).2.2 = [] := by
  cases h : operation_matches M tx op
  · rw [process_operation_not_matched M st tx op h]
    simp [checkpoints]
  · rw [process_operation_matched M st tx op h, postprocess_trace]
    simp [checkpoints]

/-- The empty trace is balanced. -/
theorem balanced_nil : balanced [] := by
  unfold balanced
  simp [deriveCount, matchedCount, insertCount, decodeCount, resolveCount]

/-- Balance is preserved by concatenation. -/
theorem balanced_append {t1 t2 : List Ev} (h1 : balanced t1)
    (h2 : balanced t2) : balanced (t1 ++ t2) := by
  obtain ⟨a1, b1, c1, d1⟩ := h1
  obtain ⟨a2, b2, c2, d2⟩ := h2
  unfold balanced
  refine ⟨?_, ?_, ?_, ?_⟩ <;>
    simp only [deriveCount, matchedCount, insertCount, decodeCount,
      resolveCount, List.countP_append] at * <;>
    omega

/-- A checkpoint write does not disturb balance. -/
theorem balanced_checkpoint_cons (n : Nat) {t : List Ev} (h : balanced t) :
    balanced (Ev.setCheckpoint n :: t) := by
  obtain ⟨a, b, c, d⟩ := h
  unfold balanced
  refine ⟨?_, ?_, ?_, ?_⟩ <;>
    simp [deriveCount, matchedCount, insertCount, decodeCount,
      resolveCount, List.countP_cons, isDeriveEv, isMatchedEv, isInsertEv,
      isDecodeEv, isResolveEv] at * <;>
    omega

/-- Processing one operation leaves a balanced trace: a dropped operation
contributes nothing, a matched one contributes its full
derive/resolve/resolve/decode/insert group. -/
theorem process_operation_balanced (M : Monitor) (st : Storage)
    (tx : Transaction) (op : OperationRecord) :
    balanced (process_operation M st tx op).2.2 := by
  cases h : operation_matches M tx op
  · rw [process_operation_not_matched M st tx op h]
    unfold balanced
    refine ⟨?_, ?_, ?_, ?_⟩ <;>
      simp [deriveCount, matchedCount, insertCount, decodeCount, resolveCount,
        List.countP_cons, isDeriveEv, isMatchedEv, isInsertEv, isDecodeEv,
        isResolveEv]
  · rw [process_operation_matched M st tx op h, postprocess_trace]
    unfold balanced
    refine ⟨?_, ?_, ?_, ?_⟩ <;>
      simp [deriveCount, matchedCount, insertCount, decodeCount, resolveCount,
        List.countP_cons, isDeriveEv, isMatchedEv, isInsertEv, isDecodeEv,
        isResolveEv]

/-! Per-transaction loop invariants. -/

/-- The operation loop emits exactly one filter decision per operation. -/
theorem processOps_filterCount (M : Monitor) (ops : List (Nat × Payload)) :
    ∀ (i : Nat) (st : Storage) (tx : Transaction),
      filterCount (processOps M i ops st tx).2.2 = ops.length := by
  induction ops with
  | nil => intro i st tx; simp [processOps, filterCount]
  | cons hd rest ih =>
    intro i st tx
    obtain ⟨opId, pl⟩ := hd
    simp only [processOps, filterCount, List.countP_append, List.length_cons]
    rw [← filterCount, ← filterCount, process_operation_filterCount, ih]
    omega

/-- The operation loop writes no checkpoint. -/
theorem processOps_no_checkpoint (M : Monitor) (ops : List (Nat × Payload)) :
    ∀ (i : Nat) (st : Storage) (tx : Transaction),
      checkpoints (processOps M i ops st tx).2.2 = [] := by
  induction ops with
  | nil => intro i st tx; simp [processOps, checkpoints]
  | cons hd rest ih =>
    intro i st tx
    obtain ⟨opId, pl⟩ := hd
    simp only [processOps, checkpoints, List.filterMap_append]
    rw [← checkpoints, ← checkpoints, process_operation_no_checkpoint, ih]
    rfl

/-- The operation loop of a transaction leaves a balanced trace. -/
theorem processOps_balanced (M : Monitor) (ops : List (Nat × Payload)) :
    ∀ (i : Nat) (st : Storage) (tx : Transaction),
      balanced (processOps M i ops st tx).2.2 := by
  induction ops with
  | nil =>
    intro i st tx
    simpa [processOps] using balanced_nil
  | cons hd rest ih =>
    intro i st tx
    obtain ⟨opId, pl⟩ := hd
    simp only [processOps]
    exact balanced_append
      (process_operation_balanced M st tx (mkRecord tx i opId))
      (ih (i + 1) _ _)

/-- Main loop invariant: one tx-id derivation per positive filter
decision, the transaction state stays a fixed point of the getter, and
every derived id and every inserted event's `transaction_id` equal the id
the getter yields on the state the loop started from. -/
theorem processOps_inv (M : Monitor) (ops : List (Nat × Payload)) :
    ∀ (i : Nat) (st : Storage) (tx : Transaction),
      deriveCount (processOps M i ops st tx).2.2 =
        matchedCount (processOps M i ops st tx).2.2 ∧
      get_tx_id M (processOps M i ops st tx).2.1 = get_tx_id M tx ∧
      (∀ s ∈ deriveIds (processOps M i ops st tx).2.2, s = (get_tx_id M tx).2) ∧
      (∀ p ∈ insertEvents (processOps M i ops st tx).2.2,
        p.1.transaction_id = (get_tx_id M tx).2) := by
  induction ops with
  | nil =>
    intro i st tx
    simp [processOps, deriveCount, matchedCount, deriveIds, insertEvents]
  | cons hd rest ih =>
    intro i st tx
    obtain ⟨opId, pl⟩ := hd
    simp only [processOps]
    cases h : operation_matches M tx (mkRecord tx i opId)
    · rw [process_operation_not_matched M st tx _ h]
      obtain ⟨ih1, ih2, ih3, ih4⟩ := ih (i + 1) st tx
      refine ⟨?_, ?_, ?_, ?_⟩
      · simpa [deriveCount, matchedCount, List.countP_append, List.countP_cons,
          isDeriveEv, isMatchedEv] using ih1
      · simpa using ih2
      · simpa [deriveIds, List.filterMap_append] using ih3
      · simpa [insertEvents, List.filterMap_append] using ih4
    · rw [process_operation_matched M st tx _ h, postprocess_trace]
      obtain ⟨ih1, ih2, ih3, ih4⟩ :=
        ih (i + 1)
          (postprocess_operation M (get_tx_id M tx).1 st
            { mkRecord tx i opId with transaction_id := some (get_tx_id M tx).2 }).1
          (get_tx_id M tx).1
      rw [gti_idem] at ih2 ih3 ih4
      refine ⟨?_, ?_, ?_, ?_⟩
      · simpa [deriveCount, matchedCount, List.countP_append, List.countP_cons,
          isDeriveEv, isMatchedEv] using ih1
      · simpa using ih2
      · intro s hs
        simp only [deriveIds, List.filterMap_append, List.filterMap_cons,
          List.mem_append, List.mem_cons] at hs
        rcases hs with hs | hs
        · simpa using hs
        · exact ih3 s (by simpa [deriveIds] using hs)
      · intro p hp
        simp only [insertEvents, List.filterMap_append, List.filterMap_cons,
          List.mem_append, List.mem_cons] at hp
        rcases hp with hp | hp
        · rcases hp with hp | hp
          · subst hp
            simp [mkEnriched]
          · simp at hp
        · exact ih4 p (by simpa [insertEvents] using hp)

/-- If no operation of the loop matched, the getter never ran and neither
the storage nor the transaction state changed. -/
theorem processOps_no_match (M : Monitor) (ops : List (Nat × Payload)) :
    ∀ (i : Nat) (st : Storage) (tx : Transaction),
      matchedCount (processOps M i ops st tx).2.2 = 0 →
      deriveCount (processOps M i ops st tx).2.2 = 0 ∧
      (processOps M i ops st tx).1 = st ∧
      (processOps M i ops st tx).2.1 = tx := by
  induction ops with
  | nil =>
    intro i st tx _
    simp [processOps, deriveCount]
  | cons hd rest ih =>
    intro i st tx hm
    obtain ⟨opId, pl⟩ := hd
    simp only [processOps] at hm ⊢
    cases h : operation_matches M tx (mkRecord tx i opId)
    · rw [process_operation_not_matched M st tx _ h] at hm ⊢
      have hm' : matchedCount (processOps M (i + 1) rest st tx).2.2 = 0 := by
        simpa [matchedCount, List.countP_append, List.countP_cons, isMatchedEv]
          using hm
      obtain ⟨d1, d2, d3⟩ := ih (i + 1) st tx hm'
      refine ⟨?_, by simpa using d2, by simpa using d3⟩
      simpa [deriveCount, List.countP_append, List.countP_cons, isDeriveEv]
        using d1
    · rw [process_operation_matched M st tx _ h] at hm
      exact absurd hm (by
        simp [matchedCount, List.countP_append, List.countP_cons, isMatchedEv])

/-! Block- and run-level lemmas. -/

/-- The transaction loop of a block emits one filter decision per
operation of the block. -/
theorem processTxs_filterCount (M : Monitor) (bn : Nat) (ts : String)
    (txs : List Transaction) :
    ∀ st : Storage,
      filterCount (processTxs M bn ts st txs).2 =
        (txs.map fun tx => tx.operations.length).sum := by
  induction txs with
  | nil => intro st; simp [processTxs, filterCount]
  | cons tx rest ih =>
    intro st
    simp only [processTxs, filterCount, List.countP_append, List.map_cons,
      List.sum_cons]
    rw [← filterCount, ← filterCount, ih]
    have := processOps_filterCount M
      ({ tx with block_num := some bn, timestamp := some ts } : Transaction).operations
      0 st { tx with block_num := some bn, timestamp := some ts }
    simp only [process_transaction] at *
    omega

/-- Processing a block writes no checkpoint. -/
theorem processTxs_no_checkpoint (M : Monitor) (bn : Nat) (ts : String)
    (txs : List Transaction) :
    ∀ st : Storage, checkpoints (processTxs M bn ts st txs).2 = [] := by
  induction txs with
  | nil => intro st; simp [processTxs, checkpoints]
  | cons tx rest ih =>
    intro st
    simp only [processTxs, checkpoints, List.filterMap_append]
    rw [← checkpoints, ← checkpoints, ih]
    have := processOps_no_checkpoint M
      ({ tx with block_num := some bn, timestamp := some ts } : Transaction).operations
      0 st { tx with block_num := some bn, timestamp := some ts }
    simp only [process_transaction] at *
    simp [this]

/-- One filter decision per operation of the block. -/
theorem process_block_filterCount (M : Monitor) (st : Storage) (b : Block) :
    filterCount (process_block M st b).2 = totalOps b := by
  simpa [process_block, totalOps] using processTxs_filterCount M b.block_num b.timestamp b.transactions st

/-- No checkpoint write inside `process_block`. -/
theorem process_block_no_checkpoint (M : Monitor) (st : Storage) (b : Block) :
    checkpoints (process_block M st b).2 = [] := by
  simpa [process_block] using processTxs_no_checkpoint M b.block_num b.timestamp b.transactions st

/-- The transaction loop of a block leaves a balanced trace. -/
theorem processTxs_balanced (M : Monitor) (bn : Nat) (ts : String)
    (txs : List Transaction) :
    ∀ st : Storage, balanced (processTxs M bn ts st txs).2 := by
  induction txs with
  | nil =>
    intro st
    simpa [processTxs] using balanced_nil
  | cons tx rest ih =>
    intro st
    simp only [processTxs]
    refine balanced_append ?_ (ih _)
    simpa [process_transaction] using processOps_balanced M
      ({ tx with block_num := some bn, timestamp := some ts } : Transaction).operations
      0 st { tx with block_num := some bn, timestamp := some ts }

/-- Processing a block leaves a balanced trace: when the block is done,
every matched operation has been enriched and persisted. -/
theorem process_block_balanced (M : Monitor) (st : Storage) (b : Block) :
    balanced (process_block M st b).2 := by
  simpa [process_block] using
    processTxs_balanced M b.block_num b.timestamp b.transactions st

/-- The checkpoint writes of a run are exactly the stream's block numbers,
in stream order. -/
theorem listen_checkpoints (M : Monitor) (bs : List Block) :
    ∀ st : Storage,
      checkpoints (listenTrace M st bs) = bs.map Block.block_num := by
  induction bs with
  | nil => intro st; simp [listenTrace, listen, checkpoints]
  | cons b rest ih =>
    intro st
    simp only [listenTrace, listen, checkpoints, List.filterMap_append,
      List.filterMap_cons, List.map_cons]
    rw [← checkpoints, ← checkpoints, process_block_no_checkpoint]
    simpa [checkpoints] using
      ih (set_last_head_block_num (process_block M st b).1 b.block_num)

/-- Blocks past `n` in a strictly ascending stream contribute no
operations to `opsUpTo _ n`. -/
theorem opsUpTo_zero (bs : List Block) (n : Nat)
    (h : ∀ b ∈ bs, n < b.block_num) : opsUpTo bs n = 0 := by
  unfold opsUpTo
  have : bs.filter (fun b => b.block_num ≤ n) = [] := by
    rw [List.filter_eq_nil_iff]
    intro b hb
    simpa using Nat.not_le_of_lt (h b hb)
  simp [this]

/-- Prepending a block numbered at most `n`. -/
theorem opsUpTo_cons_le (b : Block) (bs : List Block) (n : Nat)
    (h : b.block_num ≤ n) :
    opsUpTo (b :: bs) n = totalOps b + opsUpTo bs n := by
  simp [opsUpTo, List.filter_cons, h]

/-- Exactly the operations of the blocks up to `n` have been through the
filter when the checkpoint `n` is written: any decomposition of the run
trace at a checkpoint write for `n` has `opsUpTo bs n` filter decisions
before the write. -/
theorem listen_drain (M : Monitor) (bs : List Block) :
    ∀ st : Storage,
      List.Pairwise (· < ·) (bs.map Block.block_num) →
      ∀ u n v, listenTrace M st bs = u ++ Ev.setCheckpoint n :: v →
        filterCount u = opsUpTo bs n := by
  induction bs with
  | nil =>
    intro st _ u n v h
    simp only [listenTrace, listen] at h
    exact absurd h.symm (by simp)
  | cons b rest ih =>
    intro st hp u n v h
    simp only [List.map_cons] at hp
    rw [List.pairwise_cons] at hp
    obtain ⟨hhead, htail⟩ := hp
    simp only [listenTrace, listen] at h
    rcases List.append_eq_append_iff.mp h with ⟨a, ha1, ha2⟩ | ⟨c, hc1, hc2⟩
    · -- u extends at least to the end of the block trace
      cases a with
      | nil =>
        simp only [List.append_nil] at ha1
        simp only [List.nil_append] at ha2
        obtain ⟨hn, hv⟩ := List.cons_eq_cons.mp ha2
        obtain rfl : b.block_num = n := by simpa using hn
        subst ha1
        rw [process_block_filterCount, opsUpTo_cons_le b rest b.block_num le_rfl,
          opsUpTo_zero rest b.block_num (by
            intro b' hb'
            exact hhead b'.block_num (List.mem_map_of_mem Block.block_num hb'))]
        omega
      | cons x a' =>
        obtain ⟨hx, ha2'⟩ := List.cons_eq_cons.mp ha2
        have hrec :=
          ih (set_last_head_block_num (process_block M st b).1 b.block_num)
            htail a' n v (by simpa [listenTrace] using ha2')
        have hbn : b.block_num ≤ n := by
          have hmem : n ∈ checkpoints (listenTrace M
              (set_last_head_block_num (process_block M st b).1 b.block_num) rest) := by
            have heq : listenTrace M
                (set_last_head_block_num (process_block M st b).1 b.block_num) rest
                = a' ++ Ev.setCheckpoint n :: v := by
              simpa [listenTrace] using ha2'
            rw [heq]
            simp [checkpoints, List.filterMap_append]
          rw [listen_checkpoints] at hmem
          exact Nat.le_of_lt (hhead n hmem)
        rw [ha1, ← hx]
        simp only [filterCount, List.countP_append, List.countP_cons]
        rw [← filterCount, ← filterCount, process_block_filterCount, hrec,
          opsUpTo_cons_le b rest n hbn]
        simp [isFilterEv]
    · -- the split point lies inside the block trace: then the checkpoint
      -- event would be part of the block trace, which has none
      cases c with
      | nil =>
        simp only [List.append_nil] at hc1
        simp only [List.nil_append] at hc2
        obtain ⟨hn, hv⟩ := List.cons_eq_cons.mp hc2
        obtain rfl : n = b.block_num := by simpa using hn
        subst hc1
        rw [process_block_filterCount, opsUpTo_cons_le b rest b.block_num le_rfl,
          opsUpTo_zero rest b.block_num (by
            intro b' hb'
            exact hhead b'.block_num (List.mem_map_of_mem Block.block_num hb'))]
        omega
      | cons x c' =>
        obtain ⟨hx, hc2'⟩ := List.cons_eq_cons.mp hc2
        exfalso
        have hcp : checkpoints (process_block M st b).2 = [] :=
          process_block_no_checkpoint M st b
        rw [hc1, ← hx] at hcp
        simp [checkpoints, List.filterMap_append] at hcp

/-- Every prefix of the run trace that ends right before a checkpoint
write is balanced: when any checkpoint is written, every matched
operation filtered so far has already been enriched (two name
resolutions and a memo-decoding attempt) and persisted (its insertion
attempt made). -/
theorem listen_balanced (M : Monitor) (bs : List Block) :
    ∀ (st : Storage) (u : List Ev) (n : Nat) (v : List Ev),
      listenTrace M st bs = u ++ Ev.setCheckpoint n :: v → balanced u := by
  induction bs with
  | nil =>
    intro st u n v h
    simp only [listenTrace, listen] at h
    exact absurd h.symm (by simp)
  | cons b rest ih =>
    intro st u n v h
    simp only [listenTrace, listen] at h
    rcases List.append_eq_append_iff.mp h with ⟨a, ha1, ha2⟩ | ⟨c, hc1, hc2⟩
    · cases a with
      | nil =>
        simp only [List.append_nil] at ha1
        subst ha1
        exact process_block_balanced M st b
      | cons x a' =>
        obtain ⟨hx, ha2'⟩ := List.cons_eq_cons.mp ha2
        have hb' := ih (set_last_head_block_num (process_block M st b).1 b.block_num)
          a' n v (by simpa [listenTrace] using ha2')
        rw [ha1, ← hx]
        exact balanced_append (process_block_balanced M st b)
          (balanced_checkpoint_cons b.block_num hb')
    · cases c with
      | nil =>
        simp only [List.append_nil] at hc1
        subst hc1
        exact process_block_balanced M st b
      | cons x c' =>
        obtain ⟨hx, hc2'⟩ := List.cons_eq_cons.mp hc2
        exfalso
        have hcp : checkpoints (process_block M st b).2 = [] :=
          process_block_no_checkpoint M st b
        rw [hc1, ← hx] at hcp
        simp [checkpoints, List.filterMap_append] at hcp

/-! Further concrete fixtures for counterexamples and witnesses. -/

/-- The candidate record for the single transfer operation of `tx1`. -/
def op0 : OperationRecord := mkRecord tx1 0 0

/-- `op0` with the derived transaction id recorded. -/
def opT : OperationRecord := { op0 with transaction_id := some "tid" }

/-- The candidate record for the non-transfer operation of `txU`. -/
def opU : OperationRecord := mkRecord txU 0 6

/-- A transaction with one transfer operation carrying a memo. -/
def txM : Transaction :=
  { expiration := "e", operations := [(0, pM)],
    block_num := none, timestamp := none }

/-- The candidate record for the operation of `txM`. -/
def opM : OperationRecord := mkRecord txM 0 0

/-- A storage state already holding the event `tx1`'s operation yields. -/
def stDup : Storage :=
  { ops := [mkEnriched M1 tx1 opT], last_head_block_num := 0 }

/-- A storage state whose checkpoint is block 5. -/
def st5 : Storage := { ops := [], last_head_block_num := 5 }

def blk1 : Block := { block_num := 1, timestamp := "t1", transactions := [tx1] }

def blk2 : Block := { block_num := 2, timestamp := "t2", transactions := [] }

/-! Claim theorems. -/

/-- C1 (counterexample): a transaction with two matching operations has
the transaction-identifier derivation invoked twice, not exactly once —
the per-operation getter lambda carries no memoization. -/
theorem tx_id_not_once_cx :
    matchedCount (process_transaction M1 stEmpty tx2).2.2 ≥ 1 ∧
    deriveCount (process_transaction M1 stEmpty tx2).2.2 ≠ 1 := by
  decide

/-- C1 (amended): the transaction-identifier derivation is invoked once
per matching operation of the transaction (hence at least once when one
matches, but not exactly once), and every matching operation carries the
same `transaction_id` value, namely the id the getter yields on the
transaction. -/
theorem tx_id_per_matching_shared (M : Monitor) (st : Storage) (tx : Transaction) :
    deriveCount (process_transaction M st tx).2.2 =
      matchedCount (process_transaction M st tx).2.2 ∧
    (∀ p ∈ insertEvents (process_transaction M st tx).2.2,
      p.1.transaction_id = (get_tx_id M tx).2) := by
  obtain ⟨h1, _, _, h4⟩ := processOps_inv M tx.operations 0 st tx
  exact ⟨h1, h4⟩

/-- C4 (confirmed): in a transaction where no operation passes the
filter, the deferred transaction-identifier accessor is never invoked,
and neither the storage nor the transaction state changes. -/
theorem no_match_no_derivation (M : Monitor) (st : Storage) (tx : Transaction)
    (h : matchedCount (process_transaction M st tx).2.2 = 0) :
    deriveCount (process_transaction M st tx).2.2 = 0 ∧
    (process_transaction M st tx).1 = st ∧
    (process_transaction M st tx).2.1 = tx :=
  processOps_no_match M tx.operations 0 st tx h

/-- C4 witness: a transaction whose only operation is an account update. -/
theorem no_match_no_derivation_wit :
    matchedCount (process_transaction M1 stEmpty txU).2.2 = 0 ∧
    (deriveCount (process_transaction M1 stEmpty txU).2.2 = 0 ∧
     (process_transaction M1 stEmpty txU).1 = stEmpty ∧
     (process_transaction M1 stEmpty txU).2.1 = txU) :=
  ⟨by decide, no_match_no_derivation M1 stEmpty txU (by decide)⟩

/-- C5 (confirmed): the filter passes exactly the records whose decoded
type is `"transfer"` with `payload.from` or `payload.to` equal to the
monitored account id, and a non-matching operation is dropped with no
state change and only its negative filter decision as trace. -/
theorem filter_characterization (M : Monitor) (st : Storage) (tx : Transaction)
    (op : OperationRecord) :
    (operation_matches M tx op = true ↔
      (op.op_type = "transfer" ∧
        ((payloadAt tx op.payload_ix).from_ = M.my_account_id ∨
         (payloadAt tx op.payload_ix).to_ = M.my_account_id))) ∧
    (operation_matches M tx op = false →
      process_operation M st tx op =
        (st, tx, [Ev.filterCheck op.op_in_tx false])) := by
  constructor
  · unfold operation_matches
    split <;> simp_all
  · exact process_operation_not_matched M st tx op

/-- C5 witness: a non-transfer operation is dropped without effect. -/
theorem filter_characterization_wit :
    (operation_matches M1 txU opU = true ↔
      (opU.op_type = "transfer" ∧
        ((payloadAt txU opU.payload_ix).from_ = M1.my_account_id ∨
         (payloadAt txU opU.payload_ix).to_ = M1.my_account_id))) ∧
    process_operation M1 stEmpty txU opU =
      (stEmpty, txU, [Ev.filterCheck opU.op_in_tx false]) :=
  ⟨(filter_characterization M1 stEmpty txU opU).1,
   (filter_characterization M1 stEmpty txU opU).2 (by decide)⟩

/-- C8 (counterexample): for a matched operation the transaction-id
derivation happens before the memo-decoding attempt, so the accessor is
not invoked "only after enrichment". -/
theorem derive_before_decode_cx :
    matchedCount (process_transaction M1 stEmpty tx1).2.2 = 1 ∧
    derivedOnlyAfterDecode (process_transaction M1 stEmpty tx1).2.2 = false := by
  decide

/-- C8 (amended): for every matched operation the deferred
transaction-identifier accessor is invoked immediately after the filter
match and before enrichment: the trace is the filter decision, the
derivation, then both name resolutions, the memo-decoding attempt and the
insertion. -/
theorem derive_precedes_enrichment (M : Monitor) (st : Storage)
    (tx : Transaction) (op : OperationRecord)
    (h : operation_matches M tx op = true) :
    (process_operation M st tx op).2.2 =
      [Ev.filterCheck op.op_in_tx true,
       Ev.deriveTxId (get_tx_id M tx).2,
       Ev.resolveName (payloadAt (get_tx_id M tx).1 op.payload_ix).from_,
       Ev.resolveName (payloadAt (get_tx_id M tx).1 op.payload_ix).to_,
       Ev.decodeMemoCall,
       Ev.insert
         (mkEnriched M (get_tx_id M tx).1
           { op with transaction_id := some (get_tx_id M tx).2 })
         (hasKey st
           (mkEnriched M (get_tx_id M tx).1
             { op with transaction_id := some (get_tx_id M tx).2 }))] := by
  rw [process_operation_matched M st tx op h]
  rw [postprocess_trace]

/-- C8 witness: the single matching operation of `tx1`. -/
theorem derive_precedes_enrichment_wit :
    (process_operation M1 stEmpty tx1 op0).2.2 =
      [Ev.filterCheck op0.op_in_tx true,
       Ev.deriveTxId (get_tx_id M1 tx1).2,
       Ev.resolveName (payloadAt (get_tx_id M1 tx1).1 op0.payload_ix).from_,
       Ev.resolveName (payloadAt (get_tx_id M1 tx1).1 op0.payload_ix).to_,
       Ev.decodeMemoCall,
       Ev.insert
         (mkEnriched M1 (get_tx_id M1 tx1).1
           { op0 with transaction_id := some (get_tx_id M1 tx1).2 })
         (hasKey stEmpty
           (mkEnriched M1 (get_tx_id M1 tx1).1
             { op0 with transaction_id := some (get_tx_id M1 tx1).2 }))] :=
  derive_precedes_enrichment M1 stEmpty tx1 op0 (by decide)

/-- C6 (code bug): when the memo field is absent from the payload the
code yields the empty string — not the distinct non-empty
`!NO MEMO PROVIDED!` sentinel its own docstring documents — and the event
is still persisted carrying that empty status. -/
theorem memo_absent_empty_status :
    decode_memo M1 pA = "" ∧
    ("" : String) ≠ "!NO MEMO PROVIDED!" ∧
    (insertEvents (postprocess_operation M1 tx1 stEmpty opT).2).length = 1 ∧
    (mkEnriched M1 tx1 opT).decoded_memo = "" := by
  decide

/-- C7 (counterexample): a decryption failure that is neither a missing
decryption key nor an absent memo field — a `KeyError` raised on a
present but malformed memo — yields the empty string, not the
`!COULDN'T DECODE MEMO!` sentinel. -/
theorem memo_keyerror_cx :
    pM.memo.isSome = true ∧
    decode_memo M7 pM = "" ∧
    ("" : String) ≠ "!COULDN\x27T DECODE MEMO!" := by
  decide

/-- C7 (amended): with the memo field present, a missing decryption key
yields `!MEMO KEY MISSING!`, a `ValueError`-signalled decode failure
yields `!COULDN'T DECODE MEMO!`, and a `KeyError`-signalled failure
yields the same empty string as an absent memo; in every case processing
continues and exactly one insertion attempt is made, persisting the event
with the resulting status. -/
theorem memo_degradation (M : Monitor) (st : Storage) (tx : Transaction)
    (op : OperationRecord) (m : MemoPayload)
    (hm : (payloadAt tx op.payload_ix).memo = some m) :
    (M.decrypt m = DecryptResult.missingKeyError →
      decode_memo M (payloadAt tx op.payload_ix) = "!MEMO KEY MISSING!") ∧
    (M.decrypt m = DecryptResult.valueError →
      decode_memo M (payloadAt tx op.payload_ix) = "!COULDN\x27T DECODE MEMO!") ∧
    (M.decrypt m = DecryptResult.keyError →
      decode_memo M (payloadAt tx op.payload_ix) = "") ∧
    (insertEvents (postprocess_operation M tx st op).2).length = 1 ∧
    (insertEvents (postprocess_operation M tx st op).2).head?.map
        (fun p => p.1.decoded_memo) =
      some (decode_memo M (payloadAt tx op.payload_ix)) := by
  refine ⟨?_, ?_, ?_, ?_, ?_⟩
  · intro h
    unfold decode_memo
    rw [hm]
    simp [h]
  · intro h
    unfold decode_memo
    rw [hm]
    simp [h]
  · intro h
    unfold decode_memo
    rw [hm]
    simp [h]
  · rw [postprocess_trace]
    simp [insertEvents]
  · rw [postprocess_trace]
    simp [insertEvents, mkEnriched]

/-- C7 witness: the `KeyError` degradation case on `txM` still persists. -/
theorem memo_degradation_wit :
    decode_memo M7 (payloadAt txM opM.payload_ix) = "" ∧
    (insertEvents (postprocess_operation M7 txM stEmpty opM).2).length = 1 :=
  ⟨(memo_degradation M7 stEmpty txM opM { raw := "cipher" } rfl).2.2.1 rfl,
   (memo_degradation M7 stEmpty txM opM { raw := "cipher" } rfl).2.2.2.1⟩

/-- C9 (confirmed): inserting an enriched event whose
`(transaction_id, op_in_tx)` key already exists leaves the storage
unchanged, records the swallowed duplicate, and the pipeline keeps
emitting one filter decision per operation for any transaction. -/
theorem duplicate_swallowed (M : Monitor) (tx : Transaction) (st : Storage)
    (op : OperationRecord)
    (h : hasKey st (mkEnriched M tx op) = true) :
    (postprocess_operation M tx st op).1 = st ∧
    insertEvents (postprocess_operation M tx st op).2 =
      [(mkEnriched M tx op, true)] ∧
    (∀ (st2 : Storage) (tx2 : Transaction),
      filterCount (process_transaction M st2 tx2).2.2 = tx2.operations.length) := by
  refine ⟨?_, ?_, ?_⟩
  · rw [postprocess_storage]
    simp [h]
  · rw [postprocess_trace]
    simp [insertEvents, h]
  · intro st2 tx2
    exact processOps_filterCount M tx2.operations 0 st2 tx2

/-- C9 witness: re-inserting `tx1`'s event over `stDup`. -/
theorem duplicate_swallowed_wit :
    (postprocess_operation M1 tx1 stDup opT).1 = stDup ∧
    insertEvents (postprocess_operation M1 tx1 stDup opT).2 =
      [(mkEnriched M1 tx1 opT, true)] ∧
    filterCount (process_transaction M1 stDup tx2).2.2 = tx2.operations.length :=
  ⟨(duplicate_swallowed M1 tx1 stDup opT (by decide)).1,
   (duplicate_swallowed M1 tx1 stDup opT (by decide)).2.1,
   (duplicate_swallowed M1 tx1 stDup opT (by decide)).2.2 stDup tx2⟩

/-- C3 (confirmed): over a strictly ascending block stream the checkpoint
writes are exactly the stream's block numbers in order, the checkpoint
value never decreases, and a checkpoint for block `n` is written only
after every operation of the blocks up to and including `n` has been
handled: exactly their operations have been run through the filter
(`filterCount u = opsUpTo bs n`), and the prefix before the write is
balanced, so every matched operation among them has already been
enriched (both name resolutions and the memo-decoding attempt) and
persisted (its insertion attempt made) — none of that work is ever
deferred past the checkpoint write. -/
theorem checkpoint_discipline (M : Monitor) (st : Storage) (bs : List Block)
    (hmono : List.Pairwise (· < ·) (bs.map Block.block_num)) :
    checkpoints (listenTrace M st bs) = bs.map Block.block_num ∧
    List.Pairwise (· ≤ ·) (checkpoints (listenTrace M st bs)) ∧
    (∀ u n v, listenTrace M st bs = u ++ Ev.setCheckpoint n :: v →
      filterCount u = opsUpTo bs n ∧ balanced u) := by
  refine ⟨listen_checkpoints M bs st, ?_, ?_⟩
  · rw [listen_checkpoints M bs st]
    exact hmono.imp Nat.le_of_lt
  · intro u n v h
    exact ⟨listen_drain M bs st hmono u n v h, listen_balanced M bs st u n v h⟩

/-- C3 witness: a two-block stream. -/
theorem checkpoint_discipline_wit :
    List.Pairwise (· < ·) ([blk1, blk2].map Block.block_num) ∧
    (checkpoints (listenTrace M1 stEmpty [blk1, blk2]) =
        [blk1, blk2].map Block.block_num ∧
     List.Pairwise (· ≤ ·) (checkpoints (listenTrace M1 stEmpty [blk1, blk2])) ∧
     (∀ u n v, listenTrace M1 stEmpty [blk1, blk2] =
          u ++ Ev.setCheckpoint n :: v →
        filterCount u = opsUpTo [blk1, blk2] n ∧ balanced u)) :=
  ⟨by decide, checkpoint_discipline M1 stEmpty [blk1, blk2] (by decide)⟩

/-- C2 (counterexample): with no explicit start block and checkpoint 5,
the resolved start block is 5 — the block stream begins at the
checkpointed block itself, not at checkpoint + 1 = 6. -/
theorem resume_not_after_checkpoint_cx :
    initial_start_block none st5 = some 5 ∧
    (some 5 : Option Nat) ≠ some 6 ∧
    ((blocksFrom 5 9 (fun _ => "") (fun _ => [])).map Block.block_num).head? =
      some 5 := by
  decide

/-- C2 (amended): when no explicit start block is provided and the
checkpoint is positive, the driver begins the block stream at the
recorded block number itself, re-processing the checkpointed block. -/
theorem resume_at_checkpoint (L stop : Nat) (st : Storage)
    (ts : Nat → String) (txs : Nat → List Transaction)
    (hst : get_last_head_block_num st = L) (hL : 0 < L) (hstop : L ≤ stop) :
    initial_start_block none st = some L ∧
    ((blocksFrom L stop ts txs).map Block.block_num).head? = some L := by
  constructor
  · unfold initial_start_block
    simp [hst, hL]
  · unfold blocksFrom
    obtain ⟨k, hk⟩ : ∃ k, stop + 1 - L = k + 1 := ⟨stop - L, by omega⟩
    rw [hk, List.range'_succ]
    simp

/-- C2 witness: checkpoint 5, stream bounded by block 9. -/
theorem resume_at_checkpoint_wit :
    initial_start_block none st5 = some 5 ∧
    ((blocksFrom 5 9 (fun _ => "t") (fun _ => [])).map Block.block_num).head? =
      some 5 :=
  resume_at_checkpoint 5 9 st5 (fun _ => "t") (fun _ => []) rfl
    (by decide) (by decide)

/-- C10 (confirmed): with the default prefix `"BTS"` the tx-id getter
leaves the transaction unchanged; with a non-default prefix it inserts
the `"prefix"` key into the first operation's payload only (later
operations keep their payloads), and — the payload being aliased with the
candidate event — a matched candidate referring to the first operation is
persisted with the inserted key visible in its payload. -/
theorem tx_id_getter_effect (M : Monitor) (st : Storage) (tx : Transaction)
    (o0 : Nat) (p0 : Payload) (rest : List (Nat × Payload))
    (hops : tx.operations = (o0, p0) :: rest) :
    (M.pfx = "BTS" → get_tx_id M tx = (tx, M.txIdOf tx)) ∧
    (M.pfx ≠ "BTS" →
      (get_tx_id M tx).1 =
        { tx with operations := (o0, { p0 with pfx := some M.pfx }) :: rest } ∧
      (∀ op : OperationRecord, op.payload_ix = 0 →
        operation_matches M tx op = true →
        ∀ p ∈ insertEvents (process_operation M st tx op).2.2,
          p.1.payload.pfx = some M.pfx)) := by
  constructor
  · intro h
    unfold get_tx_id
    simp [h]
  · intro h
    have h1 : (get_tx_id M tx).1 =
        { tx with operations := (o0, { p0 with pfx := some M.pfx }) :: rest } := by
      unfold get_tx_id
      simp [h, hops]
    refine ⟨h1, ?_⟩
    intro op hix hmatch p hp
    rw [process_operation_matched M st tx op hmatch, postprocess_trace] at hp
    simp only [insertEvents, List.filterMap_cons, List.filterMap_nil] at hp
    simp only [List.mem_cons, List.not_mem_nil, or_false] at hp
    subst hp
    simp [mkEnriched, h1, payloadAt, hix]

/-- C10 witness: prefix `TEST` on `tx1`, matched first operation. -/
theorem tx_id_getter_effect_wit :
    get_tx_id M1 tx1 = (tx1, M1.txIdOf tx1) ∧
    (get_tx_id M10 tx1).1 =
      { tx1 with operations := (0, { pA with pfx := some M10.pfx }) :: [] } ∧
    (∀ p ∈ insertEvents (process_operation M10 stEmpty tx1 op0).2.2,
      p.1.payload.pfx = some M10.pfx) :=
  ⟨(tx_id_getter_effect M1 stEmpty tx1 0 pA [] rfl).1 rfl,
   ((tx_id_getter_effect M10 stEmpty tx1 0 pA [] rfl).2 (by decide)).1,
   fun p hp =>
     ((tx_id_getter_effect M10 stEmpty tx1 0 pA [] rfl).2 (by decide)).2
       op0 rfl (by decide) p hp⟩

end Bexi
